import Mathlib

/-!
Shallow embedding of the log-structured store (LSS) core of the repository:
the state word (`encodeState` / `decodeState`), the flush buffer
(`flushBuffer` with `Alloc`, `Read`, `Reset`, accessors), and the log store
(`lsStore` with `flush`, `Done` cascading, `Init`, `ReserveSpace`, `Read`).

Conventions of the embedding:
- Go `uint64` values are `Nat` with explicit `% 2 ^ 64` where the source
  performs 64-bit arithmetic; Go `int` / `int64` values are `Int` (offsets)
  or `Nat` (sizes and lengths, which are non-negative at every call site).
- Atomic CAS loops always succeed in this sequential model, so each loop
  body is executed once per step.
- Pointers to flush buffers (`child`, `head`, the reservation resource) are
  ring indices into `flushBufs`; a nil pointer is `none`.
- The file written through the writer handle is a total map `Int → Nat`
  from physical position to byte value.
- Unbounded `goto retry` loops and the recursive `Done` cascade take a fuel
  argument; `none` / an unchanged state marks a run that has not terminated
  within the given fuel.
-/

/-- Source `decodeState` (the comment there claims 32 bits for `nwriters`,
but the code masks with `0xffff`, i.e. 16 bits):
`isfull := state&0x1 == 0x1`, `nwriters := int(state >> 1 & 0xffff)`,
`offset := int(state >> 33)`. -/
def decodeState (state : Nat) : Bool × Nat × Nat :=
  (state &&& 0x1 == 0x1, (state >>> 1) &&& 0xffff, state >>> 33)

/-- Source `encodeState`: `isfullbits`, `nwritersbits = uint64(nwriters) << 1`,
`offsetbits = uint64(offset) << 33`, combined with bitwise or. `nwriters` is a
Go `int` that can be negative (a `Done` underflow), hence `Int` here; the
conversion to `uint64` is two's complement, i.e. `emod` by `2 ^ 64`. -/
def encodeState (isfull : Bool) (nwriters : Int) (offset : Nat) : Nat :=
  let isfullbits : Nat := if isfull then 1 else 0
  let nwritersbits : Nat := ((nwriters % ((2 : Int) ^ 64)).toNat <<< 1) % 2 ^ 64
  let offsetbits : Nat := (offset <<< 33) % 2 ^ 64
  isfullbits ||| nwritersbits ||| offsetbits

/-- Source `flushBuffer`. `callb` is not stored: every buffer of a store is
constructed with the store's `flush` as callback, and the callback invocation
is modelled at the store level. -/
structure flushBuffer where
  baseOffset : Int
  b : List Nat
  child : Option Nat
  state : Nat
  deriving DecidableEq, Repr

instance : Inhabited flushBuffer := ⟨⟨0, [], none, 0⟩⟩

/-- Source `newFlushBuffer`: zeroed arena of length `sz`, zero state word. -/
def newFlushBuffer (sz : Nat) : flushBuffer :=
  { baseOffset := 0, b := List.replicate sz 0, child := none, state := 0 }

/-- Source `flushBuffer.Reset`. -/
def flushBuffer.Reset (fb : flushBuffer) : flushBuffer :=
  { fb with baseOffset := 0, state := encodeState false 1 0, child := none }

/-- Source `flushBuffer.Bytes`: the arena prefix up to the fill offset. -/
def flushBuffer.Bytes (fb : flushBuffer) : List Nat :=
  fb.b.take (decodeState fb.state).2.2

/-- Source `flushBuffer.StartOffset`. -/
def flushBuffer.StartOffset (fb : flushBuffer) : Int :=
  fb.baseOffset

/-- Source `flushBuffer.EndOffset`. -/
def flushBuffer.EndOffset (fb : flushBuffer) : Int :=
  fb.baseOffset + ((decodeState fb.state).2.2 : Int)

/-- Source `flushBuffer.NextBuffer`. -/
def flushBuffer.NextBuffer (fb : flushBuffer) : Option Nat :=
  fb.child

/-- Source `flushBuffer.IsFull`. -/
def flushBuffer.IsFull (fb : flushBuffer) : Bool :=
  (decodeState fb.state).1

/-- Result quadruple of source `flushBuffer.Alloc`:
`(status, markedFull, off, buf)`; a nil byte slice is `none`. -/
structure allocResult where
  status : Bool
  markedFull : Bool
  off : Int
  buf : Option (List Nat)
  deriving DecidableEq, Repr

/-- Source `flushBuffer.Alloc`. The CAS retry loop always succeeds here
(sequential model), so one pass of the loop body is executed. The returned
slice `fb.b[offset:newOffset]` is the corresponding arena segment. -/
def flushBuffer.Alloc (fb : flushBuffer) (size : Nat) : allocResult × flushBuffer :=
  let dec := decodeState fb.state
  let isfull := dec.1
  let nw := dec.2.1
  let offset := dec.2.2
  if isfull then
    (⟨false, false, 0, none⟩, fb)
  else
    let newOffset := size + offset
    if newOffset > fb.b.length then
      (⟨false, true, 0, none⟩, { fb with state := encodeState true (nw : Int) offset })
    else
      (⟨true, false, fb.baseOffset + (offset : Int), some ((fb.b.drop offset).take size)⟩,
        { fb with state := encodeState false ((nw : Int) + 1) newOffset })

/-- Source `flushBuffer.Read` in the sequential model: with `baseOffset`
stable during the call, the two snapshot comparisons `base != fb.baseOffset`
are identities, leaving the window check and the capacity check. `none` is
`errFBReadFailed`; `some (n, bytes)` is a successful read of `n` bytes. -/
def flushBuffer.Read (fb : flushBuffer) (off : Int) (l : Nat) : Option (Nat × List Nat) :=
  let base := fb.baseOffset
  let start := off - base
  let offset := (decodeState fb.state).2.2
  if base ≤ off ∧ off < base + (offset : Int) then
    if start + (l : Int) > (fb.b.length : Int) then
      none
    else
      some (l, (fb.b.drop start.toNat).take l)
  else
    none

/-! ### State word round trip -/

/-- Under the 16-bit decode mask, `encodeState` simplifies to plain bitwise
ors of disjoint fields whenever `nwriters` and `offset` are small enough not
to wrap modulo `2 ^ 64`. -/
theorem encodeState_eq_or (f : Bool) (nw off : Nat) (hnw : nw < 2 ^ 63) (hoff : off < 2 ^ 31) :
    encodeState f (nw : Int) off
      = (if f then 1 else 0) ||| (nw <<< 1) ||| (off <<< 33) := by
  unfold encodeState
  have h1 : ((nw : Int) % ((2 : Int) ^ 64)).toNat = nw := by
    rw [Int.emod_eq_of_lt (by positivity) (by exact_mod_cast lt_trans hnw (by norm_num))]
    exact Int.toNat_ofNat nw
  have h2 : nw <<< 1 < 2 ^ 64 := by
    rw [Nat.shiftLeft_eq]
    omega
  have h3 : off <<< 33 < 2 ^ 64 := by
    rw [Nat.shiftLeft_eq]
    omega
  simp only [h1, Nat.mod_eq_of_lt h2, Nat.mod_eq_of_lt h3]

theorem testBit_or3 (a b c k : Nat) :
    (a ||| b ||| c).testBit k = (a.testBit k || b.testBit k || c.testBit k) := by
  simp [Nat.testBit_lor]

/-- Decoding after encoding recovers the flag, the writer count and the fill
offset exactly, provided `nwriters < 2 ^ 16` (the decode mask is only 16 bits
wide) and `offset < 2 ^ 31`. -/
theorem decodeState_encodeState (f : Bool) (nw off : Nat)
    (hnw : nw < 2 ^ 16) (hoff : off < 2 ^ 31) :
    decodeState (encodeState f (nw : Int) off) = (f, nw, off) := by
  rw [encodeState_eq_or f nw off (lt_trans hnw (by norm_num)) hoff]
  set b0 : Nat := if f then 1 else 0 with hb0
  have hb0le : b0 < 2 := by cases f <;> simp [hb0]
  have hbit0 : ∀ j, 0 < j → b0.testBit j = false := by
    intro j hj
    refine Nat.testBit_lt_two_pow (lt_of_lt_of_le hb0le ?_)
    exact Nat.pow_le_pow_right (n := 2) (by norm_num) hj
  have hnwbit : ∀ j, 16 ≤ j → nw.testBit j = false := by
    intro j hj
    refine Nat.testBit_lt_two_pow (lt_of_lt_of_le hnw ?_)
    exact Nat.pow_le_pow_right (n := 2) (by norm_num) hj
  -- offset component: bits 33 and above
  have hoffc : (b0 ||| nw <<< 1 ||| off <<< 33) >>> 33 = off := by
    apply Nat.eq_of_testBit_eq
    intro i
    rw [Nat.testBit_shiftRight, testBit_or3]
    rw [Nat.testBit_shiftLeft, Nat.testBit_shiftLeft]
    rw [(by omega : 33 + i - 1 = 32 + i), (by omega : 33 + i - 33 = i)]
    rw [hbit0 (33 + i) (by omega), hnwbit (32 + i) (by omega)]
    have d1 : 33 + i ≥ 33 := by omega
    simp [d1]
  -- writer count component: bits 1..16 of the state, masked to 16 bits
  have hnwc : (b0 ||| nw <<< 1 ||| off <<< 33) >>> 1 &&& 0xffff = nw := by
    have hmask : (0xffff : Nat) = 2 ^ 16 - 1 := by norm_num
    rw [hmask, Nat.and_pow_two_sub_one_eq_mod]
    apply Nat.eq_of_testBit_eq
    intro i
    rw [Nat.testBit_mod_two_pow, Nat.testBit_shiftRight, testBit_or3]
    rw [Nat.testBit_shiftLeft, Nat.testBit_shiftLeft]
    rw [(by omega : 1 + i - 1 = i)]
    rw [hbit0 (1 + i) (by omega)]
    by_cases hi : i < 16
    · have hi33 : ¬ (1 + i ≥ 33) := by omega
      simp [hi, hi33, (by omega : 1 + i ≥ 1)]
    · have hn : nw.testBit i = false := hnwbit i (by omega)
      simp [hi, hn]
  -- full flag component: bit 0
  have hfc : ((b0 ||| nw <<< 1 ||| off <<< 33) &&& 0x1 == 0x1) = f := by
    have hb : (b0 ||| nw <<< 1 ||| off <<< 33).testBit 0 = f := by
      rw [testBit_or3, Nat.testBit_shiftLeft, Nat.testBit_shiftLeft]
      cases f <;> simp [hb0]
    rw [Nat.testBit_zero] at hb
    have h1 : (b0 ||| nw <<< 1 ||| off <<< 33) &&& 0x1
        = (b0 ||| nw <<< 1 ||| off <<< 33) % 2 := Nat.and_one_is_mod _
    cases f
    · simp only [decide_eq_false_iff_not] at hb
      have : (b0 ||| nw <<< 1 ||| off <<< 33) % 2 = 0 := by omega
      rw [h1, this]
      rfl
    · simp only [decide_eq_true_eq] at hb
      rw [h1, hb]
      rfl
  unfold decodeState
  rw [hoffc, hnwc, hfc]

/-- The decoded writer count is always at most `0xffff`, whatever the state
word is: the decoder masks it to 16 bits. -/
theorem decode_nw_le (state : Nat) : (decodeState state).2.1 ≤ 0xffff := by
  show (state >>> 1) &&& 0xffff ≤ 0xffff
  have hmask : (0xffff : Nat) = 2 ^ 16 - 1 := by norm_num
  rw [hmask, Nat.and_pow_two_sub_one_eq_mod]
  have := Nat.mod_lt (state >>> 1) (y := 2 ^ 16) (by norm_num)
  omega

/-! ### The log store -/

/-- Source `lsStore`. The two `os.File` handles are replaced by the map
`file` from physical byte position to byte value, written by `flush` and
read by `Read`. Buffers are addressed by ring index. -/
structure lsStore where
  file : Int → Nat
  maxSize : Int
  headOffset : Int
  tailOffset : Int
  head : Option Nat
  bufSize : Nat
  flushBufs : List flushBuffer
  currBuf : Nat

/-- Buffer lookup through a ring index (`s.flushBufs[i]`). -/
def lsStore.getBuf (s : lsStore) (i : Nat) : flushBuffer :=
  s.flushBufs.getD i default

/-- In-place update of one ring slot (mutation through a buffer pointer). -/
def lsStore.setBuf (s : lsStore) (i : Nat) (fb : flushBuffer) : lsStore :=
  { s with flushBufs := s.flushBufs.set i fb }

/-- Effect of `s.w.WriteAt(data, pos)` on the modelled file contents. -/
def writeAt (f : Int → Nat) (data : List Nat) (pos : Int) : Int → Nat :=
  fun i => if pos ≤ i ∧ i < pos + (data.length : Int) then data.getD (i - pos).toNat 0 else f i

/-- Source `lsStore.flush` applied to the buffer in slot `i`: write the
filled prefix at `StartOffset % maxSize` (Go `%` truncates, `Int.tmod`),
publish `head = fb.child`, store `tailOffset = fb.EndOffset()`, reset. -/
def lsStore.flush (s : lsStore) (i : Nat) : lsStore :=
  let fb := s.getBuf i
  let fpos := Int.tmod fb.StartOffset s.maxSize
  { s with
    file := writeAt s.file fb.Bytes fpos
    head := fb.child
    tailOffset := fb.EndOffset
    flushBufs := s.flushBufs.set i fb.Reset }

/-- One pass of the body of source `flushBuffer.Done` on slot `i` (the CAS
succeeds): decrement `nwriters`; when the decrement moves `nwriters` from 1
to 0 while `full` is set, invoke the flush callback (the store's `flush`).
Returns the new store, whether the callback fired, and the child pointer as
read after the callback (the source reads `fb.child` after `fb.callb(fb)`,
and a fired callback has reset it to nil). -/
def lsStore.doneStep (s : lsStore) (i : Nat) : lsStore × Bool × Option Nat :=
  let fb := s.getBuf i
  let dec := decodeState fb.state
  let isfull := dec.1
  let nw := dec.2.1
  let offset := dec.2.2
  let s1 := s.setBuf i { fb with state := encodeState isfull ((nw : Int) - 1) offset }
  let fired := nw == 1 && isfull
  let s2 := if fired then s1.flush i else s1
  (s2, fired, (s2.getBuf i).child)

/-- Source `flushBuffer.Done` with its tail recursion on `fb.child` made
explicit with fuel (the chain cannot be longer than the ring unless it has a
cycle, on which the Go recursion would not terminate either). -/
def lsStore.done : Nat → lsStore → Nat → lsStore
  | 0, s, _ => s
  | fuel + 1, s, i =>
    let r := s.doneStep i
    match r.2.2 with
    | some j => lsStore.done fuel r.1 j
    | none => r.1

/-- Source `flushBuffer.Init` for slot `nextIdx` with parent in slot
`parentIdx` (the parent is never nil at the call site in `ReserveSpace`):
set `baseOffset`, install `state = encodeState(false, 2, 0)`, publish
`parent.child`, then call `Done` on the parent. -/
def lsStore.initBuf (s : lsStore) (nextIdx parentIdx : Nat) (baseOffset : Int) : lsStore :=
  let next := s.getBuf nextIdx
  let s1 := s.setBuf nextIdx { next with baseOffset := baseOffset, state := encodeState false 2 0 }
  let parent := s1.getBuf parentIdx
  let s2 := s1.setBuf parentIdx { parent with child := some nextIdx }
  s2.done (s2.flushBufs.length + 1) parentIdx

/-- Source `lsStore.ReserveSpace` with the `goto retry` loop fuelled.
`none` means the call has not returned (it is still spinning or yielding).
Note the shape of the source: on `markedFull` it initialises the successor,
advances `currBuf` (the CAS cannot fail sequentially) and then falls
through to `return lssOffset(offset), buf, lssResource(fb)` with the values
of the failed `Alloc`, i.e. offset 0 and a nil slice; there is no retry on
this path. The spin `for nextFb.IsFull()` cannot make progress in a
sequential execution, so it is modelled as not returning. -/
def lsStore.ReserveSpace : Nat → lsStore → Nat → Option (lsStore × Int × Option (List Nat) × Nat)
  | 0, _, _ => none
  | fuel + 1, s, size =>
    let id := s.currBuf
    let fbid := id % s.flushBufs.length
    let fb := s.getBuf fbid
    let r := fb.Alloc size
    let s1 := s.setBuf fbid r.2
    if r.1.status then
      some (s1, r.1.off, r.1.buf, fbid)
    else
      if r.1.markedFull then
        let nextId := id + 1
        let nextFbid := nextId % s1.flushBufs.length
        if (s1.getBuf nextFbid).IsFull then
          none
        else
          let s2 := s1.initBuf nextFbid fbid ((s1.getBuf fbid).EndOffset)
          let s3 := { s2 with currBuf := nextId }
          some (s3, r.1.off, r.1.buf, fbid)
      else
        lsStore.ReserveSpace fuel s1 size

/-- Source `lsStore.FinalizeWrite`: `Done` on the reservation's buffer. -/
def lsStore.FinalizeWrite (s : lsStore) (i : Nat) : lsStore :=
  s.done (s.flushBufs.length + 1) i

/-- The inner chain walk of source `lsStore.Read`: try `fb.Read` on each
buffer from `head`, stopping after the current buffer or on a nil child. -/
def lsStore.chainRead (s : lsStore) : Nat → Nat → Int → Nat → Nat → Option (List Nat)
  | _, _, _, _, 0 => none
  | cur, endIdx, offset, l, fuel + 1 =>
    let fb := s.getBuf cur
    match fb.Read offset l with
    | some r => some r.2
    | none =>
      if cur = endIdx then
        none
      else
        match fb.NextBuffer with
        | some nxt => s.chainRead nxt endIdx offset l fuel
        | none => none

/-- Source `lsStore.Read` with the `goto retry` loop fuelled. Offsets below
`tailOffset` are served from the file at `offset % maxSize`; offsets at or
above it are searched in the live buffer window from `head` to the current
buffer, retrying when the window check or the walk fails. -/
def lsStore.Read : Nat → lsStore → Int → Nat → Option (List Nat)
  | 0, _, _, _ => none
  | fuel + 1, s, offset, l =>
    let tail := s.tailOffset
    if offset ≥ tail then
      let fbid := s.currBuf % s.flushBufs.length
      let endB := s.getBuf fbid
      match s.head with
      | none => none
      | some hIdx =>
        let startB := s.getBuf hIdx
        if startB.StartOffset < endB.EndOffset ∧
            startB.StartOffset ≤ offset ∧ offset < endB.EndOffset then
          match s.chainRead hIdx fbid offset l (s.flushBufs.length + 1) with
          | some r => some r
          | none => lsStore.Read fuel s offset l
        else
          lsStore.Read fuel s offset l
    else
      let fpos := Int.tmod offset s.maxSize
      some ((List.range l).map (fun i => s.file (fpos + (i : Int))))

/-- Source `newLSStore` (file handles aside): `nbufs` buffers of `bufSize`
zero bytes, each `Reset`, with `head` at slot 0 and zero offsets. -/
def newLSStore (maxSize : Int) (bufSize : Nat) (nbufs : Nat) : lsStore :=
  { file := fun _ => 0
    maxSize := maxSize
    headOffset := 0
    tailOffset := 0
    head := some 0
    bufSize := bufSize
    flushBufs := List.replicate nbufs (newFlushBuffer bufSize).Reset
    currBuf := 0 }

/-! ### Drivers used by the concrete scenarios

A writer that received `(off, slice, handle)` fills the slice; the slice
aliases `fb.b[start .. start+len)`, so the write mutates the arena. -/

/-- Overwrite `l[start .. start+d.length)` with `d` (the caller writing
through the slice returned by `ReserveSpace`). -/
def listOverwrite (l : List Nat) (start : Nat) (d : List Nat) : List Nat :=
  l.take start ++ d ++ l.drop (start + d.length)

/-- Mutate the arena of slot `i` through a reservation's slice. -/
def lsStore.writeRes (s : lsStore) (i : Nat) (start : Nat) (d : List Nat) : lsStore :=
  let fb := s.getBuf i
  s.setBuf i { fb with b := listOverwrite fb.b start d }

/-- Driver: run a reservation and keep only the resulting store (fuel 4 is
ample for a sequential call: one alloc plus one ring advance). -/
def stepReserve (s : lsStore) (size : Nat) : lsStore :=
  match lsStore.ReserveSpace 4 s size with
  | some r => r.1
  | none => s

/-! ### Store helper lemmas -/

theorem getBuf_setBuf_self (s : lsStore) (i : Nat) (fb : flushBuffer)
    (h : i < s.flushBufs.length) : (s.setBuf i fb).getBuf i = fb := by
  unfold lsStore.setBuf lsStore.getBuf
  simp [List.getD_eq_getElem?_getD, List.getElem?_set_self h]

theorem getBuf_setBuf_ne (s : lsStore) (i j : Nat) (fb : flushBuffer)
    (h : i ≠ j) : (s.setBuf i fb).getBuf j = s.getBuf j := by
  unfold lsStore.setBuf lsStore.getBuf
  simp [List.getD_eq_getElem?_getD, List.getElem?_set_ne h]

theorem setBuf_file (s : lsStore) (i : Nat) (fb : flushBuffer) :
    (s.setBuf i fb).file = s.file := rfl

theorem setBuf_len (s : lsStore) (i : Nat) (fb : flushBuffer) :
    (s.setBuf i fb).flushBufs.length = s.flushBufs.length := by
  unfold lsStore.setBuf
  simp

/-! ### Claim theorems: the state word -/

/-- Claim C2 (code bug witnessed at the failing input): the decoder masks
`nwriters` with `0xffff` although the encoder gives it 32 bits (and the
source comment says 32 bits), so `decodeState (encodeState full nwriters
offset)` drops the high 16 bits of `nwriters`: at `nwriters = 65536` the
round trip returns writer count 0 instead of 65536. -/
theorem C2_decode_mask_bug :
    decodeState (encodeState false 65536 0) = (false, 0, 0)
    ∧ decodeState (encodeState false 65536 0) ≠ (false, 65536, 0) := by
  constructor
  · decide
  · decide

/-! ### Claim C1: behaviour of ReserveSpace when a buffer fills -/

/-- View of a `ReserveSpace` result without the store: (offset, slice, resource slot). -/
def reserveView (r : lsStore × Int × Option (List Nat) × Nat) : Int × Option (List Nat) × Nat :=
  (r.2.1, r.2.2.1, r.2.2.2)

/-- Store with `bufSize = 4`, two buffers. -/
def c1s0 : lsStore := newLSStore 1024 4 2

/-- `c1s0` after a successful 3-byte reservation. -/
def c1s1 : lsStore := stepReserve c1s0 3

/-- Claim C1 (code bug witnessed at the failing input): on a fresh store
with 4-byte buffers, `ReserveSpace 3` returns offset 0 with a 3-byte slice,
but the following `ReserveSpace 2` — which seals buffer 0, initialises the
successor and advances the ring cursor — falls through and returns offset 0
with a nil slice instead of retrying for a usable reservation, although the
successor was initialised correctly (base offset 3, one remaining pin after
the parent's cascading `Done`). The issued `(offset, size)` pairs therefore
do not tile `[0, 5)`. -/
theorem C1_reserve_no_retry :
    (lsStore.ReserveSpace 4 c1s0 3).map reserveView = some (0, some (List.replicate 3 0), 0)
    ∧ (lsStore.ReserveSpace 4 c1s1 2).map reserveView = some (0, none, 0)
    ∧ ((stepReserve c1s1 2).getBuf 1).baseOffset = 3
    ∧ decodeState ((stepReserve c1s1 2).getBuf 1).state = (false, 1, 0)
    ∧ (stepReserve c1s1 2).currBuf = 1 := by
  refine ⟨by decide, by decide, by decide, by decide, by decide⟩

/-! ### Claim C8: monotonicity of the tail offset -/

/-- Store with three 64-byte buffers. -/
def c8s0 : lsStore := newLSStore 1024 64 3

/-- Reserve 60 bytes in buffer 0 (not finalized yet). -/
def c8s1 : lsStore := stepReserve c8s0 60

/-- Reserving 10 more seals buffer 0 and initialises buffer 1 at base 60. -/
def c8s2 : lsStore := stepReserve c8s1 10

/-- Reserve 30 bytes in buffer 1 (offset 60, not finalized yet). -/
def c8s3 : lsStore := stepReserve c8s2 30

/-- Reserving 40 more seals buffer 1 and initialises buffer 2 at base 90. -/
def c8s4 : lsStore := stepReserve c8s3 40

/-- Finalizing the 30-byte reservation flushes buffer 1 (its writer count
reaches 0 while it is full): `tailOffset` becomes 90. -/
def c8s5 : lsStore := c8s4.FinalizeWrite 1

/-- Finalizing the earlier 60-byte reservation then flushes buffer 0:
`tailOffset` is overwritten with 60. -/
def c8s6 : lsStore := c8s5.FinalizeWrite 0

set_option maxRecDepth 100000 in
/-- Claim C8 (code bug witnessed at the failing execution): `tailOffset` is
not monotonically non-decreasing. With three buffers, reserving 60 bytes,
10 bytes (seals buffer 0), 30 bytes and 40 bytes (seals buffer 1), then
finalizing the 30-byte write before the 60-byte write, makes buffer 1 flush
before buffer 0: the tail moves to 90, and the next flush stores 60. The
unconditional `Done` cascade released buffer 1's ordering pin as soon as
buffer 2 was initialised, so nothing held back its flush callback. -/
theorem C8_tail_not_monotone :
    c8s5.tailOffset = 90
    ∧ c8s6.tailOffset = 60
    ∧ ¬ (c8s5.tailOffset ≤ c8s6.tailOffset) := by
  refine ⟨by decide, by decide, by decide⟩

/-! ### Claim C3: scenario A (one writer, bufSize 64, two buffers, maxSize 1024) -/

/-- Scenario store: `newLSStore(maxSize=1024, bufSize=64, nbufs=2)`. -/
def c3s0 : lsStore := newLSStore 1024 64 2

/-- After `ReserveSpace 10` (returns offset 0, slice of buffer 0). -/
def c3s1 : lsStore := stepReserve c3s0 10

/-- The writer fills the reserved 10 bytes with `0x01`. -/
def c3s2 : lsStore := c3s1.writeRes 0 0 (List.replicate 10 1)

/-- `FinalizeWrite` of the first reservation. -/
def c3s3 : lsStore := c3s2.FinalizeWrite 0

/-- After `ReserveSpace 60`: buffer 0 is sealed (10 + 60 > 64), buffer 1 is
initialised at base offset 10, the cursor advances, buffer 0 flushes — and
the call returns offset 0 with a nil slice. -/
def c3s4 : lsStore := stepReserve c3s3 60

set_option maxRecDepth 100000 in
/-- Claim C3 counterexample: in scenario A the second reservation does not
yield offset 10 with a 60-byte slice; `ReserveSpace` falls through after
sealing buffer 0 and returns offset 0 with a nil slice, and the final tail
offset is 10, not 70 (buffer 1 is never sealed, so it never flushes). -/
theorem C3_counterexample :
    (lsStore.ReserveSpace 4 c3s3 60).map reserveView = some (0, none, 0)
    ∧ ¬ ((lsStore.ReserveSpace 4 c3s3 60).map reserveView
          = some (10, some (List.replicate 60 0), 0))
    ∧ c3s4.tailOffset = 10
    ∧ c3s4.tailOffset ≠ 70 := by
  refine ⟨by decide, by decide, by decide, by decide⟩

set_option maxRecDepth 100000 in
/-- Claim C3 as amended to what the code does in scenario A: the first
reservation yields offset 0 and a 10-byte slice; after writing `0x01`×10 and
finalizing, `ReserveSpace 60` seals buffer 0, initialises buffer 1 with base
offset 10, advances the cursor and flushes buffer 0 — but returns offset 0
with a nil slice. Afterwards `tail_offset = 10`, `head` points to buffer 1,
`read(0, [10])` returns `0x01`×10 from the file, and `read(10, [60])` never
returns (the live window `[10, 10)` is empty, so the read retries forever). -/
theorem C3_amended :
    (lsStore.ReserveSpace 4 c3s0 10).map reserveView = some (0, some (List.replicate 10 0), 0)
    ∧ (lsStore.ReserveSpace 4 c3s3 60).map reserveView = some (0, none, 0)
    ∧ (c3s4.getBuf 1).baseOffset = 10
    ∧ decodeState (c3s4.getBuf 1).state = (false, 2, 0)
    ∧ c3s4.currBuf = 1
    ∧ c3s4.head = some 1
    ∧ decodeState (c3s4.getBuf 0).state = (false, 1, 0)
    ∧ c3s4.tailOffset = 10
    ∧ lsStore.Read 5 c3s4 0 10 = some (List.replicate 10 1)
    ∧ (∀ fuel : Nat, lsStore.Read fuel c3s4 10 60 = none) := by
  refine ⟨by decide, by decide, by decide, by decide, by decide,
    by decide, by decide, by decide, by decide, ?_⟩
  intro fuel
  induction fuel with
  | zero => rfl
  | succ n ih =>
    have hstep : lsStore.Read (n + 1) c3s4 10 60 = lsStore.Read n c3s4 10 60 := rfl
    rw [hstep, ih]

/-! ### Claim C4: Alloc on a non-full buffer -/

/-- Claim C4 as amended: the three cases of `Alloc` behave as described
provided the updated fields stay in the range the state word can represent,
i.e. `nwriters + 1 < 2 ^ 16` (the decoder masks the count to 16 bits) and
`offset + size < 2 ^ 31` (the offset field has 31 usable bits). -/
theorem C4_alloc_cases (fb : flushBuffer) (size : Nat) (full : Bool) (nw off : Nat)
    (hdec : decodeState fb.state = (full, nw, off)) :
    (full = true → fb.Alloc size = (⟨false, false, 0, none⟩, fb))
    ∧ (full = false → off + size ≤ fb.b.length → nw + 1 < 2 ^ 16 → off + size < 2 ^ 31 →
        (fb.Alloc size).1
            = ⟨true, false, fb.baseOffset + (off : Int), some ((fb.b.drop off).take size)⟩
        ∧ ((fb.Alloc size).1.buf.getD []).length = size
        ∧ decodeState ((fb.Alloc size).2.state) = (false, nw + 1, off + size)
        ∧ (fb.Alloc size).2.b = fb.b
        ∧ (fb.Alloc size).2.baseOffset = fb.baseOffset)
    ∧ (full = false → off + size > fb.b.length → off < 2 ^ 31 →
        (fb.Alloc size).1 = ⟨false, true, 0, none⟩
        ∧ decodeState ((fb.Alloc size).2.state) = (true, nw, off)
        ∧ (fb.Alloc size).2.b = fb.b
        ∧ (fb.Alloc size).2.baseOffset = fb.baseOffset) := by
  have hnwle : nw < 2 ^ 16 := by
    have h := decode_nw_le fb.state
    rw [hdec] at h
    simp at h
    omega
  refine ⟨?_, ?_, ?_⟩
  · intro hfull
    subst hfull
    simp only [flushBuffer.Alloc, hdec]
    rw [if_pos trivial]
  · intro hfull hle hnw hoffsz
    subst hfull
    have hgt : ¬ (size + off > fb.b.length) := by omega
    have hcast : ((nw : Int) + 1) = ((nw + 1 : Nat) : Int) := by push_cast; ring
    simp only [flushBuffer.Alloc, hdec]
    rw [if_neg (show ¬ (false = true) by simp), if_neg hgt]
    refine ⟨rfl, ?_, ?_, rfl, rfl⟩
    · show ((fb.b.drop off).take size).length = size
      simp only [List.length_take, List.length_drop]
      omega
    · show decodeState (encodeState false ((nw : Int) + 1) (size + off)) = (false, nw + 1, off + size)
      rw [hcast, decodeState_encodeState false (nw + 1) (size + off) hnw (by omega),
        Nat.add_comm size off]
  · intro hfull hgt hoff
    subst hfull
    have hgt' : size + off > fb.b.length := by omega
    simp only [flushBuffer.Alloc, hdec]
    rw [if_neg (show ¬ (false = true) by simp), if_pos hgt']
    refine ⟨rfl, ?_, rfl, rfl⟩
    · show decodeState (encodeState true (nw : Int) off) = (true, nw, off)
      rw [decodeState_encodeState true nw off hnwle hoff]

/-- Buffer used for the C4 counterexample: capacity 1, writer count 65535. -/
def c4fb : flushBuffer :=
  { baseOffset := 0, b := [0], child := none, state := encodeState false 65535 0 }

/-- Claim C4 counterexample: with `nwriters = 65535`, a successful 1-byte
`Alloc` produces a state that decodes to writer count 0, not 65536 — the
decoder's 16-bit mask wraps the incremented count, so the claimed
"new state decodes to (false, nw+1, off+size)" fails as stated. -/
theorem C4_counterexample :
    decodeState c4fb.state = (false, 65535, 0)
    ∧ 0 + 1 ≤ c4fb.b.length
    ∧ (c4fb.Alloc 1).1.status = true
    ∧ decodeState ((c4fb.Alloc 1).2.state) = (false, 0, 1)
    ∧ decodeState ((c4fb.Alloc 1).2.state) ≠ (false, 65535 + 1, 0 + 1) := by
  refine ⟨by decide, by decide, by decide, by decide, by decide⟩

/-- Buffer used for the C4 witness: capacity 4, one writer, fill offset 2. -/
def c4wfb : flushBuffer :=
  { baseOffset := 7, b := [0, 0, 0, 0], child := none, state := encodeState false 1 2 }

/-- Witness for C4 at a concrete input: a 2-byte allocation at fill offset 2
of a 4-byte buffer succeeds, returns logical offset 9 and the 2-byte arena
segment, and the new state decodes to `(false, 2, 4)`. -/
theorem C4_alloc_witness :
    decodeState c4wfb.state = (false, 1, 2)
    ∧ (c4wfb.Alloc 2).1
        = ⟨true, false, c4wfb.baseOffset + (2 : Nat), some ((c4wfb.b.drop 2).take 2)⟩
    ∧ decodeState ((c4wfb.Alloc 2).2.state) = (false, 1 + 1, 2 + 2) := by
  have h := (C4_alloc_cases c4wfb 2 false 1 2 (by decide)).2.1 rfl
    (by decide) (by decide) (by decide)
  exact ⟨by decide, h.1, h.2.2.1⟩

/-! ### Claim C10: requests larger than the buffer capacity -/

/-- Claim C10: for a request strictly larger than the arena, `Alloc` never
succeeds. On a non-full buffer it seals the buffer — the new state decodes
to `(true, nw, off)` with writer count and offset unchanged — and returns
`(false, true, 0, nil)`; on a full buffer it returns `(false, false, 0, nil)`
and leaves the buffer untouched. -/
theorem C10_oversize_alloc (fb : flushBuffer) (size : Nat) (full : Bool) (nw off : Nat)
    (hdec : decodeState fb.state = (full, nw, off))
    (hsz : size > fb.b.length) (hoff : off < 2 ^ 31) :
    (fb.Alloc size).1.status = false
    ∧ (full = false →
        (fb.Alloc size).1 = ⟨false, true, 0, none⟩
        ∧ decodeState ((fb.Alloc size).2.state) = (true, nw, off)
        ∧ (fb.Alloc size).2.b = fb.b
        ∧ (fb.Alloc size).2.baseOffset = fb.baseOffset)
    ∧ (full = true → fb.Alloc size = (⟨false, false, 0, none⟩, fb)) := by
  have hnwle : nw < 2 ^ 16 := by
    have h := decode_nw_le fb.state
    rw [hdec] at h
    simp at h
    omega
  have hgt' : size + off > fb.b.length := by omega
  cases full
  · have hcase := (C4_alloc_cases fb size false nw off hdec).2.2 rfl (by omega) hoff
    refine ⟨?_, ?_, ?_⟩
    · rw [hcase.1]
    · intro hf
      exact hcase
    · intro hf
      exact absurd hf (by simp)
  · have hcase := (C4_alloc_cases fb size true nw off hdec).1 rfl
    refine ⟨?_, ?_, ?_⟩
    · rw [hcase]
    · intro hf
      exact absurd hf (by simp)
    · intro hf
      exact hcase

/-- Buffer used for the C10 witness: capacity 2, one writer, fill offset 1. -/
def c10fb : flushBuffer :=
  { baseOffset := 0, b := [0, 0], child := none, state := encodeState false 1 1 }

/-- Witness for C10 at a concrete input: a 3-byte request on a 2-byte buffer
fails and seals the buffer, leaving writer count and offset unchanged. -/
theorem C10_oversize_alloc_witness :
    (c10fb.Alloc 3).1.status = false
    ∧ (c10fb.Alloc 3).1 = ⟨false, true, 0, none⟩
    ∧ decodeState ((c10fb.Alloc 3).2.state) = (true, 1, 1) := by
  have h := C10_oversize_alloc c10fb 3 false 1 1 (by decide) (by decide) (by decide)
  exact ⟨h.1, (h.2.1 rfl).1, (h.2.1 rfl).2.1⟩

/-! ### Claim C7: flushBuffer.Read -/

/-- Claim C7: with `baseOffset` stable (the sequential model), `Read`
fails exactly when the requested offset lies outside the filled window
`[baseOffset, baseOffset + fill)` or the requested length runs past the
arena capacity; otherwise it returns exactly `len(buf)` bytes of the arena
starting at index `off - baseOffset`. -/
theorem C7_read_iff (fb : flushBuffer) (off : Int) (l : Nat) :
    (fb.Read off l = none ↔
      (¬ (fb.baseOffset ≤ off ∧ off < fb.baseOffset + ((decodeState fb.state).2.2 : Int))
        ∨ off - fb.baseOffset + (l : Int) > (fb.b.length : Int)))
    ∧ ((fb.baseOffset ≤ off ∧ off < fb.baseOffset + ((decodeState fb.state).2.2 : Int)) →
        off - fb.baseOffset + (l : Int) ≤ (fb.b.length : Int) →
        fb.Read off l = some (l, (fb.b.drop (off - fb.baseOffset).toNat).take l)
        ∧ ((fb.b.drop (off - fb.baseOffset).toNat).take l).length = l) := by
  constructor
  · by_cases hw : fb.baseOffset ≤ off ∧ off < fb.baseOffset + ((decodeState fb.state).2.2 : Int)
    · by_cases hc : off - fb.baseOffset + (l : Int) > (fb.b.length : Int)
      · simp [flushBuffer.Read, hw, hc]
      · simp [flushBuffer.Read, hw, hc]
    · simp [flushBuffer.Read, hw]
  · intro hw hc
    have hc' : ¬ (off - fb.baseOffset + (l : Int) > (fb.b.length : Int)) := by omega
    constructor
    · simp [flushBuffer.Read, hw, hc']
    · have ht : ((off - fb.baseOffset).toNat : Int) = off - fb.baseOffset :=
        Int.toNat_of_nonneg (by omega)
      simp only [List.length_take, List.length_drop]
      omega

/-- Buffer used for the C7 witness: base offset 5, arena `[9, 8, 7, 6]`,
fill offset 3. -/
def c7fb : flushBuffer :=
  { baseOffset := 5, b := [9, 8, 7, 6], child := none, state := encodeState false 1 3 }

/-- Witness for C7 at a concrete input: reading 2 bytes at logical offset 6
(window `[5, 8)`, capacity 4) succeeds and returns the bytes `[8, 7]`. -/
theorem C7_read_iff_witness :
    c7fb.Read 6 2 = some (2, [8, 7]) := by
  have h := (C7_read_iff c7fb 6 2).2 (by constructor <;> decide) (by decide)
  rw [h.1]
  decide

/-! ### Claim C6: the flush callback -/

/-- Claim C6: `flush` of the buffer in slot `i` (with a well-formed fill
offset) writes exactly the first `fill` bytes of the arena to the file at
`StartOffset % maxSize` and leaves every other file position unchanged,
sets `head` to the buffer's child, stores `tailOffset = EndOffset()`, and
resets the buffer: its state decodes to `(false, 1, 0)`, its base offset is
0 and its child is nil. -/
theorem C6_flush (s : lsStore) (i : Nat) (hi : i < s.flushBufs.length)
    (hfill : (decodeState (s.getBuf i).state).2.2 ≤ (s.getBuf i).b.length) :
    (∀ p : Int,
       (Int.tmod (s.getBuf i).StartOffset s.maxSize ≤ p ∧
          p < Int.tmod (s.getBuf i).StartOffset s.maxSize
              + ((decodeState (s.getBuf i).state).2.2 : Int) →
          (s.flush i).file p
            = (s.getBuf i).b.getD (p - Int.tmod (s.getBuf i).StartOffset s.maxSize).toNat 0)
       ∧ (¬ (Int.tmod (s.getBuf i).StartOffset s.maxSize ≤ p ∧
          p < Int.tmod (s.getBuf i).StartOffset s.maxSize
              + ((decodeState (s.getBuf i).state).2.2 : Int)) →
          (s.flush i).file p = s.file p))
    ∧ (s.flush i).head = (s.getBuf i).child
    ∧ (s.flush i).tailOffset = (s.getBuf i).EndOffset
    ∧ decodeState ((s.flush i).getBuf i).state = (false, 1, 0)
    ∧ ((s.flush i).getBuf i).baseOffset = 0
    ∧ ((s.flush i).getBuf i).child = none := by
  have hreset : (s.flush i).getBuf i = (s.getBuf i).Reset := by
    show (s.flushBufs.set i (s.getBuf i).Reset).getD i default = _
    simp [List.getD_eq_getElem?_getD, List.getElem?_set_self hi]
  have hlen : ((s.getBuf i).Bytes).length = (decodeState (s.getBuf i).state).2.2 := by
    unfold flushBuffer.Bytes
    simp only [List.length_take]
    omega
  refine ⟨?_, rfl, rfl, ?_, ?_, ?_⟩
  · intro p
    constructor
    · intro hp
      show writeAt s.file ((s.getBuf i).Bytes) (Int.tmod (s.getBuf i).StartOffset s.maxSize) p
          = _
      unfold writeAt
      rw [if_pos (by rw [hlen]; exact hp)]
      have hk : (p - Int.tmod (s.getBuf i).StartOffset s.maxSize).toNat
          < (decodeState (s.getBuf i).state).2.2 := by
        omega
      unfold flushBuffer.Bytes
      rw [List.getD_eq_getElem?_getD, List.getD_eq_getElem?_getD, List.getElem?_take,
        if_pos hk]
    · intro hp
      show writeAt s.file ((s.getBuf i).Bytes) (Int.tmod (s.getBuf i).StartOffset s.maxSize) p
          = s.file p
      unfold writeAt
      rw [if_neg (by rw [hlen]; exact hp)]
  · rw [hreset]
    show decodeState (encodeState false 1 0) = (false, 1, 0)
    decide
  · rw [hreset]
    rfl
  · rw [hreset]
    rfl

/-- Store used for the C6 witness: one buffer, base offset 2, arena
`[7, 8, 9, 0]`, sealed with fill offset 3 and no writers left. -/
def c6st : lsStore :=
  { file := fun _ => 0, maxSize := 16, headOffset := 0, tailOffset := 0,
    head := some 0, bufSize := 4,
    flushBufs := [{ baseOffset := 2, b := [7, 8, 9, 0], child := some 1,
                    state := encodeState true 0 3 }],
    currBuf := 0 }

/-- Witness for C6 at a concrete input: flushing the buffer writes byte 8 to
file position 3, leaves position 7 untouched, advances the tail to 5, moves
`head` to the child and resets the buffer. -/
theorem C6_flush_witness :
    (c6st.flush 0).file 3 = 8
    ∧ (c6st.flush 0).file 7 = 0
    ∧ (c6st.flush 0).tailOffset = 5
    ∧ (c6st.flush 0).head = some 1
    ∧ decodeState ((c6st.flush 0).getBuf 0).state = (false, 1, 0) := by
  have h := C6_flush c6st 0 (by decide) (by decide)
  refine ⟨?_, ?_, ?_, ?_, ?_⟩
  · have hv := (h.1 3).1 (by constructor <;> decide)
    rw [hv]
    decide
  · have hv := (h.1 7).2 (by decide)
    rw [hv]
    rfl
  · rw [h.2.2.1]
    decide
  · rw [h.2.1]
    rfl
  · exact h.2.2.2.1

/-! ### Claim C5: Done -/

/-- Claim C5: one `Done` call on slot `i` decrements the writer count by
one; the flush callback fires exactly when the decrement moves the count
from 1 to 0 while the buffer is full (otherwise the tail, head and file are
untouched); and afterwards `Done` recurses on the child pointer as read
after the callback (a fired callback has reset it to nil). -/
theorem C5_done (s : lsStore) (i : Nat) (isfull : Bool) (nw off : Nat)
    (hi : i < s.flushBufs.length)
    (hdec : decodeState (s.getBuf i).state = (isfull, nw, off))
    (hnw : 1 ≤ nw) (hoff : off < 2 ^ 31) :
    ((s.doneStep i).2.1 = true ↔ (nw = 1 ∧ isfull = true))
    ∧ (¬ (nw = 1 ∧ isfull = true) →
        decodeState (((s.doneStep i).1.getBuf i).state) = (isfull, nw - 1, off)
        ∧ (s.doneStep i).1.tailOffset = s.tailOffset
        ∧ (s.doneStep i).1.head = s.head
        ∧ (s.doneStep i).1.file = s.file)
    ∧ ((nw = 1 ∧ isfull = true) →
        (s.doneStep i).1
          = (s.setBuf i
              { s.getBuf i with state := encodeState isfull ((nw : Int) - 1) off }).flush i
        ∧ (s.doneStep i).1.tailOffset = (s.getBuf i).baseOffset + (off : Int)
        ∧ decodeState (((s.doneStep i).1.getBuf i).state) = (false, 1, 0))
    ∧ (s.doneStep i).2.2 = ((s.doneStep i).1.getBuf i).child
    ∧ (∀ fuel : Nat,
        lsStore.done (fuel + 1) s i
          = match (s.doneStep i).2.2 with
            | some j => lsStore.done fuel (s.doneStep i).1 j
            | none => (s.doneStep i).1) := by
  have hnwle : nw < 2 ^ 16 := by
    have h := decode_nw_le (s.getBuf i).state
    rw [hdec] at h
    simp at h
    omega
  have hcast : ((nw : Int) - 1) = ((nw - 1 : Nat) : Int) := by
    push_cast [hnw]
    ring
  by_cases hcase : nw = 1 ∧ isfull = true
  · have hfired : (nw == 1 && isfull) = true := by
      simp [hcase.1, hcase.2]
    have hs2 : s.doneStep i
        = ((s.setBuf i
            { s.getBuf i with state := encodeState isfull ((nw : Int) - 1) off }).flush i,
           true,
           (((s.setBuf i
              { s.getBuf i with state := encodeState isfull ((nw : Int) - 1) off }).flush i).getBuf i).child) := by
      simp only [lsStore.doneStep, hdec, hfired]
      rfl
    have hmid : ((s.setBuf i
        { s.getBuf i with state := encodeState isfull ((nw : Int) - 1) off }).getBuf i)
        = { s.getBuf i with state := encodeState isfull ((nw : Int) - 1) off } :=
      getBuf_setBuf_self s i _ hi
    have hresetgot : (((s.setBuf i
        { s.getBuf i with state := encodeState isfull ((nw : Int) - 1) off }).flush i).getBuf i)
        = ({ s.getBuf i with state := encodeState isfull ((nw : Int) - 1) off } : flushBuffer).Reset := by
      show (((s.setBuf i _).flushBufs).set i _).getD i default = _
      rw [List.getD_eq_getElem?_getD]
      rw [List.getElem?_set_self (by simpa [lsStore.setBuf] using hi)]
      rw [hmid]
      rfl
    refine ⟨?_, ?_, ?_, ?_, ?_⟩
    · rw [hs2]
      simp [hcase]
    · intro hc
      exact absurd hcase hc
    · intro _
      refine ⟨by rw [hs2], ?_, ?_⟩
      · rw [hs2]
        show ((s.setBuf i
            { s.getBuf i with state := encodeState isfull ((nw : Int) - 1) off }).getBuf i).EndOffset = _
        rw [hmid]
        show (s.getBuf i).baseOffset
            + ((decodeState (encodeState isfull ((nw : Int) - 1) off)).2.2 : Int) = _
        rw [hcast, decodeState_encodeState isfull (nw - 1) off (by omega) hoff]
      · rw [hs2]
        show decodeState ((((s.setBuf i
            { s.getBuf i with state := encodeState isfull ((nw : Int) - 1) off }).flush i).getBuf i).state) = _
        rw [hresetgot]
        show decodeState (encodeState false 1 0) = (false, 1, 0)
        decide
    · rw [hs2]
    · intro fuel
      rfl
  · have hfired : (nw == 1 && isfull) = false := by
      rcases Decidable.not_and_iff_or_not.mp hcase with h | h
      · simp [h]
      · simp only [Bool.not_eq_true] at h
        simp [h]
    have hs2 : s.doneStep i
        = (s.setBuf i
            { s.getBuf i with state := encodeState isfull ((nw : Int) - 1) off },
           false,
           ((s.setBuf i
              { s.getBuf i with state := encodeState isfull ((nw : Int) - 1) off }).getBuf i).child) := by
      simp only [lsStore.doneStep, hdec, hfired]
      rfl
    have hmid : ((s.setBuf i
        { s.getBuf i with state := encodeState isfull ((nw : Int) - 1) off }).getBuf i)
        = { s.getBuf i with state := encodeState isfull ((nw : Int) - 1) off } :=
      getBuf_setBuf_self s i _ hi
    refine ⟨?_, ?_, ?_, ?_, ?_⟩
    · rw [hs2]
      simp [hcase]
    · intro _
      refine ⟨?_, by rw [hs2]; rfl, by rw [hs2]; rfl, by rw [hs2]; rfl⟩
      rw [hs2]
      show decodeState (((s.setBuf i
          { s.getBuf i with state := encodeState isfull ((nw : Int) - 1) off }).getBuf i).state) = _
      rw [hmid]
      show decodeState (encodeState isfull ((nw : Int) - 1) off) = _
      rw [hcast, decodeState_encodeState isfull (nw - 1) off (by omega) hoff]
    · intro hc
      exact absurd hc hcase
    · rw [hs2]
    · intro fuel
      rfl

/-- Store used for the C5 witness: one buffer, base offset 4, fill offset 2,
sealed, one writer left. -/
def c5st : lsStore :=
  { file := fun _ => 0, maxSize := 16, headOffset := 0, tailOffset := 0,
    head := some 0, bufSize := 2,
    flushBufs := [{ baseOffset := 4, b := [0, 0], child := none,
                    state := encodeState true 1 2 }],
    currBuf := 0 }

/-- Witness for C5 at a concrete input: the `Done` on the last writer of the
sealed buffer fires the callback, the tail becomes 6 (= 4 + 2) and the
buffer is reset. -/
theorem C5_done_witness :
    (c5st.doneStep 0).2.1 = true
    ∧ (c5st.doneStep 0).1.tailOffset = 6
    ∧ decodeState (((c5st.doneStep 0).1.getBuf 0).state) = (false, 1, 0) := by
  have h := C5_done c5st 0 true 1 2 (by decide) (by decide) (by decide) (by decide)
  refine ⟨h.1.mpr ⟨rfl, rfl⟩, ?_, ?_⟩
  · rw [(h.2.2.1 ⟨rfl, rfl⟩).2.1]
    decide
  · exact (h.2.2.1 ⟨rfl, rfl⟩).2.2

/-! ### Claim C9: the fill offset against the arena capacity -/

/-- Operations of a single flush buffer, as exercised by claim C9. -/
inductive bufOp where
  | allocOp : Nat → bufOp
  | doneOp : bufOp
  | resetOp : bufOp

/-- Buffer-local effect of one operation: `Alloc`'s buffer update, the
`Done` CAS write (`nwriters - 1` over the Go `int`, converted to `uint64`
by `encodeState`; the flush callback's buffer-local effect is `Reset`,
present in the alphabet), and `Reset`. -/
def applyOp (fb : flushBuffer) : bufOp → flushBuffer
  | .allocOp size => (fb.Alloc size).2
  | .doneOp =>
      { fb with state := (encodeState (decodeState fb.state).1
          (((decodeState fb.state).2.1 : Int) - 1) (decodeState fb.state).2.2) }
  | .resetOp => fb.Reset

/-- Run a sequence of buffer operations. -/
def stepsTo (fb : flushBuffer) : List bufOp → flushBuffer
  | [] => fb
  | op :: rest => stepsTo (applyOp fb op) rest

/-- Per-operation conditions under which the state word cannot wrap: a
`Done` only with at least one recorded writer, an `Alloc` only with a
representable incremented count. -/
def okOp (fb : flushBuffer) : bufOp → Prop
  | .allocOp _ => (decodeState fb.state).2.1 + 1 < 2 ^ 16
  | .doneOp => 1 ≤ (decodeState fb.state).2.1
  | .resetOp => True

/-- A sequence is admissible when every operation meets its condition in
the state it is applied to. -/
def okSeq (fb : flushBuffer) : List bufOp → Prop
  | [] => True
  | op :: rest => okOp fb op ∧ okSeq (applyOp fb op) rest

/-- Invariant: the state word is an encoding whose fill offset is bounded
by the arena length, with representable fields. -/
def goodBuf (cap : Nat) (fb : flushBuffer) : Prop :=
  fb.b.length = cap
  ∧ ∃ f : Bool, ∃ nw off : Nat,
      fb.state = encodeState f (nw : Int) off ∧ nw < 2 ^ 16 ∧ off ≤ cap ∧ off < 2 ^ 31

theorem applyOp_good (cap : Nat) (hcap : cap < 2 ^ 31) (fb : flushBuffer) (op : bufOp)
    (hg : goodBuf cap fb) (hok : okOp fb op) : goodBuf cap (applyOp fb op) := by
  obtain ⟨hlen, f, nw, off, hst, hnw, hoffcap, hoff31⟩ := hg
  have hdec : decodeState fb.state = (f, nw, off) := by
    rw [hst]
    exact decodeState_encodeState f nw off hnw hoff31
  cases op with
  | allocOp size =>
    have hok' : nw + 1 < 2 ^ 16 := by
      have := hok
      unfold okOp at this
      rw [hdec] at this
      simpa using this
    show goodBuf cap ((fb.Alloc size).2)
    cases f with
    | true =>
      have h := (C4_alloc_cases fb size true nw off hdec).1 rfl
      rw [h]
      exact ⟨hlen, true, nw, off, hst, hnw, hoffcap, hoff31⟩
    | false =>
      by_cases hsz : size + off > fb.b.length
      · simp only [flushBuffer.Alloc, hdec]
        rw [if_neg (show ¬ (false = true) by simp), if_pos hsz]
        exact ⟨hlen, true, nw, off, rfl, hnw, hoffcap, hoff31⟩
      · simp only [flushBuffer.Alloc, hdec]
        rw [if_neg (show ¬ (false = true) by simp), if_neg hsz]
        refine ⟨hlen, false, nw + 1, size + off, ?_, hok', by omega, by omega⟩
        show encodeState false ((nw : Int) + 1) (size + off) = _
        have hcast : ((nw : Int) + 1) = ((nw + 1 : Nat) : Int) := by push_cast; ring
        rw [hcast]
  | doneOp =>
    have hok' : 1 ≤ nw := by
      have := hok
      unfold okOp at this
      rw [hdec] at this
      simpa using this
    have hcast : ((nw : Int) - 1) = ((nw - 1 : Nat) : Int) := by
      push_cast [hok']
      ring
    show goodBuf cap { fb with state := (encodeState (decodeState fb.state).1
        (((decodeState fb.state).2.1 : Int) - 1) (decodeState fb.state).2.2) }
    rw [hdec]
    exact ⟨hlen, f, nw - 1, off, by rw [hcast], by omega, hoffcap, hoff31⟩
  | resetOp =>
    exact ⟨hlen, false, 1, 0, rfl, by norm_num, by omega, by norm_num⟩

theorem stepsTo_good (cap : Nat) (hcap : cap < 2 ^ 31) :
    ∀ ops : List bufOp, ∀ fb : flushBuffer,
      goodBuf cap fb → okSeq fb ops → goodBuf cap (stepsTo fb ops) := by
  intro ops
  induction ops with
  | nil => intro fb hg _; exact hg
  | cons op rest ih =>
    intro fb hg hok
    exact ih (applyOp fb op) (applyOp_good cap hcap fb op hg hok.1) hok.2

/-- Claim C9 as amended: starting from the `Reset` state of a buffer whose
capacity is below `2 ^ 31`, after any admissible sequence of `Alloc`,
`Done` and `Reset` operations (each `Done` finds at least one recorded
writer, each `Alloc` finds a representable count — the balance the store
protocol is supposed to maintain), the fill offset decoded from the state
word never exceeds the arena length, `EndOffset - StartOffset ≤ capacity`,
and `Bytes` is an in-bounds prefix of the arena. -/
theorem C9_offset_bounded (cap : Nat) (ops : List bufOp)
    (hcap : cap < 2 ^ 31)
    (hok : okSeq ((newFlushBuffer cap).Reset) ops) :
    (decodeState (stepsTo ((newFlushBuffer cap).Reset) ops).state).2.2
      ≤ (stepsTo ((newFlushBuffer cap).Reset) ops).b.length
    ∧ (stepsTo ((newFlushBuffer cap).Reset) ops).EndOffset
        - (stepsTo ((newFlushBuffer cap).Reset) ops).StartOffset ≤ (cap : Int)
    ∧ ((stepsTo ((newFlushBuffer cap).Reset) ops).Bytes).length
        ≤ (stepsTo ((newFlushBuffer cap).Reset) ops).b.length := by
  have hg0 : goodBuf cap ((newFlushBuffer cap).Reset) := by
    refine ⟨by simp [newFlushBuffer, flushBuffer.Reset], false, 1, 0, rfl, by norm_num,
      by omega, by norm_num⟩
  obtain ⟨hlen, f, nw, off, hst, hnw, hoffcap, hoff31⟩ :=
    stepsTo_good cap hcap ops ((newFlushBuffer cap).Reset) hg0 hok
  have hdec : decodeState (stepsTo ((newFlushBuffer cap).Reset) ops).state = (f, nw, off) := by
    rw [hst]
    exact decodeState_encodeState f nw off hnw hoff31
  refine ⟨?_, ?_, ?_⟩
  · rw [hdec, hlen]
    exact hoffcap
  · unfold flushBuffer.EndOffset flushBuffer.StartOffset
    rw [hdec]
    simp
    omega
  · unfold flushBuffer.Bytes
    simp [List.length_take]

/-- Buffer used for the C9 counterexample: a reset 4-byte buffer. -/
def c9fb : flushBuffer := (newFlushBuffer 4).Reset

/-- Claim C9 counterexample: two bare `Done` operations from the reset
state underflow the writer count (1 → 0 → -1); the two's-complement
encoding of -1 floods the upper bits of the state word, so the decoded
fill offset becomes 2^31 - 1 = 2147483647, far beyond the capacity 4 —
the claimed invariant fails for this Alloc/Done/Reset sequence. -/
theorem C9_counterexample :
    (decodeState (stepsTo c9fb [bufOp.doneOp, bufOp.doneOp]).state).2.2 = 2147483647
    ∧ (stepsTo c9fb [bufOp.doneOp, bufOp.doneOp]).b.length = 4
    ∧ ¬ ((decodeState (stepsTo c9fb [bufOp.doneOp, bufOp.doneOp]).state).2.2
          ≤ (stepsTo c9fb [bufOp.doneOp, bufOp.doneOp]).b.length) := by
  refine ⟨by decide, by decide, by decide⟩

/-- Witness for C9 at a concrete input: on a 4-byte buffer, allocating 3
bytes, finalizing, resetting and allocating 2 bytes is admissible and
leaves the fill offset (2) within the capacity. -/
theorem C9_offset_bounded_witness :
    (decodeState (stepsTo ((newFlushBuffer 4).Reset)
        [bufOp.allocOp 3, bufOp.doneOp, bufOp.resetOp, bufOp.allocOp 2]).state).2.2
      ≤ (stepsTo ((newFlushBuffer 4).Reset)
        [bufOp.allocOp 3, bufOp.doneOp, bufOp.resetOp, bufOp.allocOp 2]).b.length := by
  refine (C9_offset_bounded 4
    [bufOp.allocOp 3, bufOp.doneOp, bufOp.resetOp, bufOp.allocOp 2]
    (by norm_num) ?_).1
  refine ⟨?_, ?_, ?_, ?_, trivial⟩
  · show (decodeState ((newFlushBuffer 4).Reset).state).2.1 + 1 < 2 ^ 16
    decide
  · show 1 ≤ (decodeState (stepsTo ((newFlushBuffer 4).Reset) [bufOp.allocOp 3]).state).2.1
    decide
  · trivial
  · show (decodeState (stepsTo ((newFlushBuffer 4).Reset)
        [bufOp.allocOp 3, bufOp.doneOp, bufOp.resetOp]).state).2.1 + 1 < 2 ^ 16
    decide

/-- Witness for C3 (amended): the livelocked read instantiated at fuel 3. -/
theorem C3_amended_witness :
    lsStore.Read 3 c3s4 10 60 = none :=
  C3_amended.2.2.2.2.2.2.2.2.2 3
